import Mathlib

/-!
Verification of the horizon-crossing / transit detector of the celestial
repository (`find_rise_transit_set` in `voyager_from_kc-3.py`, identical copy
in `archive/voyager_from_kc-2.py`) and of the compass-direction helper
(`get_compass_direction` in `moon.py` and `planets.py`).

Modelling choices:
* Timestamps and altitudes are rationals (`ℚ`).  Python `datetime` arithmetic
  (`(t1 - t0).total_seconds()`, `t0 + timedelta(seconds = d)`) is affine
  arithmetic on a time axis, embedded directly as rational arithmetic.
* A detector run that raises a Python exception is modelled as `none`;
  a normal return is `some (rise?, transit?, set?)`.  The two exception
  sources of the source code are `max(altitudes)` on an empty list
  (`ValueError`) and `times[max_alt_idx]` when `times` is shorter than
  `altitudes` (`IndexError`).  The two scan loops walk consecutive index
  pairs of `altitudes` and read the matching entries of `times`; with the
  (always intended) equal-length inputs this is exactly a walk over
  `times.zip altitudes`, which is how the scans are embedded.
-/

/-- One linear-interpolation step of the source code:
`delta_t = (t1 - t0) * (0 - a0) / (a1 - a0)` and the returned instant is
`t0 + delta_t` (lines 61–64 and 76–79 of `voyager_from_kc-3.py`). -/
def interpTime (t0 t1 a0 a1 : ℚ) : ℚ :=
  t0 + (t1 - t0) * (0 - a0) / (a1 - a0)

/-- Branch condition of the rise loop: `altitudes[i-1] <= 0 and altitudes[i] > 0`. -/
def riseCond (a b : ℚ) : Bool :=
  decide (a ≤ 0) && decide (0 < b)

/-- Branch condition of the set loop: `altitudes[i-1] > 0 and altitudes[i] <= 0`. -/
def setCond (a b : ℚ) : Bool :=
  decide (0 < a) && decide (b ≤ 0)

/-- Python `max` over a list: raises (`none`) on the empty list, otherwise the
left fold of binary `max` over the elements. -/
def pyMax : List ℚ → Option ℚ
  | [] => none
  | a :: as => some (as.foldl max a)

/-- `np.argmax`: index of the first occurrence of the maximum value
(0 on lists too short for the recursion to look at a pair). -/
def pyArgmax : List ℚ → Nat
  | [] => 0
  | [_] => 0
  | a :: b :: rest =>
    let j := pyArgmax (b :: rest)
    if a < (b :: rest).getD j 0 then j + 1 else 0

/-- One of the two scan loops (`for i in range(1, len(altitudes))`) over the
series of `(timestamp, altitude)` pairs: stop at the first consecutive pair
whose altitudes satisfy `cond`, and return the interpolated instant for that
pair; `none` when no pair matches. -/
def scanCross (cond : ℚ → ℚ → Bool) : List (ℚ × ℚ) → Option ℚ
  | (t0, a0) :: (t1, a1) :: rest =>
    if cond a0 a1 then some (interpTime t0 t1 a0 a1)
    else scanCross cond ((t1, a1) :: rest)
  | _ => none

/-- `find_rise_transit_set(times, altitudes)` of `voyager_from_kc-3.py`
(lines 41–82).  Outer `none` models a raised exception.  In the main branch
`¬ m ≤ 0` holds, so the source's `if max(altitudes) > 0` guard in front of the
transit assignment is always true there and the transit lookup
`times[np.argmax(altitudes)]` is performed unconditionally. -/
def find_rise_transit_set (times altitudes : List ℚ) :
    Option (Option ℚ × Option ℚ × Option ℚ) :=
  match pyMax altitudes with
  | none => none
  | some m =>
    if m ≤ 0 then some (none, none, none)
    else
      match times.get? (pyArgmax altitudes) with
      | none => none
      | some tmax =>
        some (scanCross riseCond (times.zip altitudes), some tmax,
              scanCross setCond (times.zip altitudes))

/-- Python `round`: round half to even (banker's rounding), as used by
`get_compass_direction`. -/
def pyRound (q : ℚ) : ℤ :=
  if q - Int.floor q < 1 / 2 then Int.floor q
  else if 1 / 2 < q - Int.floor q then Int.floor q + 1
  else if Int.floor q % 2 = 0 then Int.floor q else Int.floor q + 1

/-- The sixteen compass points of `moon.py` / `planets.py`. -/
def directions : List String :=
  ["N", "NNE", "NE", "ENE", "E", "ESE", "SE", "SSE",
   "S", "SSW", "SW", "WSW", "W", "WNW", "NW", "NNW"]

/-- `get_compass_direction(azimuth)`: `directions[round(azimuth / 22.5) % 16]`
(`moon.py` lines 31–35, `planets.py` lines 35–39). -/
def get_compass_direction (azimuth : ℚ) : String :=
  directions.getD (pyRound (azimuth / (45 / 2)) % 16).toNat ""

/-! Basic facts about the embedded primitives. -/

lemma riseCond_true_iff (a b : ℚ) : riseCond a b = true ↔ a ≤ 0 ∧ 0 < b := by
  simp [riseCond]

lemma setCond_true_iff (a b : ℚ) : setCond a b = true ↔ 0 < a ∧ b ≤ 0 := by
  simp [setCond]

lemma riseCond_false_iff (a b : ℚ) :
    riseCond a b = false ↔ ¬(a ≤ 0 ∧ 0 < b) := by
  rw [Bool.eq_false_iff, Ne, riseCond_true_iff]

lemma setCond_false_iff (a b : ℚ) :
    setCond a b = false ↔ ¬(0 < a ∧ b ≤ 0) := by
  rw [Bool.eq_false_iff, Ne, setCond_true_iff]

lemma foldl_max_init_le (as : List ℚ) {a b : ℚ} (h : a ≤ b) :
    a ≤ as.foldl max b := by
  induction as generalizing b with
  | nil => simpa using h
  | cons c cs ih => exact ih (le_trans h (le_max_left b c))

lemma mem_le_foldl_max (as : List ℚ) (a : ℚ) {x : ℚ} (hx : x ∈ as) :
    x ≤ as.foldl max a := by
  induction as generalizing a with
  | nil => cases hx
  | cons c cs ih =>
    rcases List.mem_cons.mp hx with rfl | hx'
    · exact foldl_max_init_le cs (le_max_right a x)
    · exact ih _ hx'

lemma le_pyMax {l : List ℚ} {m x : ℚ} (hm : pyMax l = some m) (hx : x ∈ l) :
    x ≤ m := by
  cases l with
  | nil => cases hx
  | cons a as =>
    simp only [pyMax, Option.some.injEq] at hm
    subst hm
    rcases List.mem_cons.mp hx with rfl | hx'
    · exact foldl_max_init_le as le_rfl
    · exact mem_le_foldl_max as a hx'

lemma foldl_max_mem (as : List ℚ) (a : ℚ) : as.foldl max a ∈ a :: as := by
  induction as generalizing a with
  | nil => simp
  | cons c cs ih =>
    rw [List.foldl_cons]
    have h := ih (max a c)
    rcases List.mem_cons.mp h with h1 | h2
    · rw [h1]
      rcases max_choice a c with hm | hm <;> rw [hm]
      · exact List.mem_cons_self _ _
      · exact List.mem_cons_of_mem a (List.mem_cons_self _ _)
    · exact List.mem_cons_of_mem a (List.mem_cons_of_mem c h2)

lemma pyMax_mem {l : List ℚ} {m : ℚ} (hm : pyMax l = some m) : m ∈ l := by
  cases l with
  | nil => simp [pyMax] at hm
  | cons a as =>
    simp only [pyMax, Option.some.injEq] at hm
    subst hm
    exact foldl_max_mem as a

lemma pyMax_eq_some {l : List ℚ} (h : l ≠ []) : ∃ m, pyMax l = some m := by
  cases l with
  | nil => simp at h
  | cons a as => exact ⟨_, rfl⟩

lemma get?_eq_some_getD (l : List ℚ) (n : Nat) (h : n < l.length) :
    l.get? n = some (l.getD n 0) := by
  induction l generalizing n with
  | nil => simp at h
  | cons a as ih =>
    cases n with
    | zero => rfl
    | succ k =>
      rw [List.getD_cons_succ]
      exact ih k (Nat.lt_of_succ_lt_succ (by simpa using h))

lemma getD_mem (l : List ℚ) (n : Nat) (h : n < l.length) : l.getD n 0 ∈ l := by
  induction l generalizing n with
  | nil => simp at h
  | cons a as ih =>
    cases n with
    | zero => simp
    | succ k =>
      rw [List.getD_cons_succ]
      exact List.mem_cons_of_mem a
        (ih k (Nat.lt_of_succ_lt_succ (by simpa using h)))

lemma zip_getD (times alts : List ℚ) (k : Nat)
    (h1 : k < times.length) (h2 : k < alts.length) :
    (times.zip alts).getD k (0, 0) = (times.getD k 0, alts.getD k 0) := by
  induction times generalizing alts k with
  | nil => simp at h1
  | cons t ts ih =>
    cases alts with
    | nil => simp at h2
    | cons a as =>
      cases k with
      | zero => rfl
      | succ k =>
        simp only [List.zip_cons_cons, List.getD_cons_succ]
        exact ih as k (Nat.lt_of_succ_lt_succ (by simpa using h1))
          (Nat.lt_of_succ_lt_succ (by simpa using h2))

lemma pyArgmax_cons_cons (a b : ℚ) (rest : List ℚ) :
    pyArgmax (a :: b :: rest) =
      if a < (b :: rest).getD (pyArgmax (b :: rest)) 0 then
        pyArgmax (b :: rest) + 1
      else 0 := rfl

lemma pyArgmax_lt (l : List ℚ) (h : l ≠ []) : pyArgmax l < l.length := by
  induction l with
  | nil => simp at h
  | cons a t ih =>
    cases t with
    | nil => simp [pyArgmax]
    | cons b rest =>
      have hlt := ih (by simp)
      rw [pyArgmax_cons_cons]
      by_cases hc : a < (b :: rest).getD (pyArgmax (b :: rest)) 0
      · rw [if_pos hc]
        simpa using Nat.succ_lt_succ hlt
      · rw [if_neg hc]
        simp

lemma pyArgmax_is_max (l : List ℚ) (k : Nat) (hk : k < l.length) :
    l.getD k 0 ≤ l.getD (pyArgmax l) 0 := by
  induction l generalizing k with
  | nil => simp at hk
  | cons a t ih =>
    cases t with
    | nil =>
      cases k with
      | zero => simp [pyArgmax]
      | succ k' => simp at hk
    | cons b rest =>
      rw [pyArgmax_cons_cons]
      by_cases hc : a < (b :: rest).getD (pyArgmax (b :: rest)) 0
      · rw [if_pos hc, List.getD_cons_succ]
        cases k with
        | zero =>
          rw [List.getD_cons_zero]
          exact le_of_lt hc
        | succ k' =>
          rw [List.getD_cons_succ]
          exact ih k' (Nat.lt_of_succ_lt_succ (by simpa using hk))
      · rw [if_neg hc, List.getD_cons_zero]
        cases k with
        | zero => rw [List.getD_cons_zero]
        | succ k' =>
          rw [List.getD_cons_succ]
          exact le_trans
            (ih k' (Nat.lt_of_succ_lt_succ (by simpa using hk)))
            (not_lt.mp hc)

lemma pyArgmax_first (l : List ℚ) (k : Nat) (hk : k < pyArgmax l) :
    l.getD k 0 < l.getD (pyArgmax l) 0 := by
  induction l generalizing k with
  | nil => simp [pyArgmax] at hk
  | cons a t ih =>
    cases t with
    | nil => simp [pyArgmax] at hk
    | cons b rest =>
      rw [pyArgmax_cons_cons] at hk ⊢
      by_cases hc : a < (b :: rest).getD (pyArgmax (b :: rest)) 0
      · rw [if_pos hc] at hk ⊢
        rw [List.getD_cons_succ]
        cases k with
        | zero =>
          rw [List.getD_cons_zero]
          exact hc
        | succ k' =>
          rw [List.getD_cons_succ]
          exact ih k' (Nat.lt_of_succ_lt_succ hk)
      · rw [if_neg hc] at hk
        simp at hk

lemma scanCross_cons_cons (cond : ℚ → ℚ → Bool) (t0 a0 t1 a1 : ℚ)
    (rest : List (ℚ × ℚ)) :
    scanCross cond ((t0, a0) :: (t1, a1) :: rest) =
      if cond a0 a1 then some (interpTime t0 t1 a0 a1)
      else scanCross cond ((t1, a1) :: rest) := rfl

/-- The scan returns no event exactly when no consecutive pair of the series
satisfies the branch condition. -/
lemma scanCross_eq_none_iff (cond : ℚ → ℚ → Bool) (l : List (ℚ × ℚ)) :
    scanCross cond l = none ↔
      ∀ k, k + 1 < l.length →
        cond (l.getD k (0, 0)).2 (l.getD (k + 1) (0, 0)).2 = false := by
  induction l with
  | nil => simp [scanCross]
  | cons x t ih =>
    obtain ⟨tx, ax⟩ := x
    cases t with
    | nil =>
      simp only [scanCross, List.length_cons, List.length_nil]
      constructor
      · intro _ k hk
        omega
      · intro _
        trivial
    | cons y rest =>
      obtain ⟨ty, ay⟩ := y
      rw [scanCross_cons_cons]
      by_cases hc : cond ax ay = true
      · rw [if_pos hc]
        constructor
        · intro h
          cases h
        · intro h
          have h0 := h 0 (by simp)
          rw [List.getD_cons_zero, List.getD_cons_succ, List.getD_cons_zero]
            at h0
          rw [hc] at h0
          cases h0
      · rw [if_neg hc, ih]
        constructor
        · intro h k hk
          cases k with
          | zero =>
            rw [List.getD_cons_zero, List.getD_cons_succ, List.getD_cons_zero]
            exact Bool.eq_false_iff.mpr hc
          | succ k' =>
            rw [List.getD_cons_succ, List.getD_cons_succ]
            exact h k' (by simpa using Nat.lt_of_succ_lt_succ hk)
        · intro h k hk
          have := h (k + 1) (by simpa using Nat.succ_lt_succ hk)
          rwa [List.getD_cons_succ, List.getD_cons_succ] at this

/-- The scan returns the interpolated instant of the FIRST matching pair:
if pair `(j, j+1)` matches and no earlier pair does, the result is the
interpolation on that pair. -/
lemma scanCross_eq_some_first (cond : ℚ → ℚ → Bool) (l : List (ℚ × ℚ))
    (j : Nat) (hj : j + 1 < l.length)
    (hc : cond (l.getD j (0, 0)).2 (l.getD (j + 1) (0, 0)).2 = true)
    (hfirst : ∀ k, k < j →
      cond (l.getD k (0, 0)).2 (l.getD (k + 1) (0, 0)).2 = false) :
    scanCross cond l =
      some (interpTime (l.getD j (0, 0)).1 (l.getD (j + 1) (0, 0)).1
        (l.getD j (0, 0)).2 (l.getD (j + 1) (0, 0)).2) := by
  induction l generalizing j with
  | nil => simp at hj
  | cons x t ih =>
    obtain ⟨tx, ax⟩ := x
    cases t with
    | nil => simp at hj
    | cons y rest =>
      obtain ⟨ty, ay⟩ := y
      rw [scanCross_cons_cons]
      cases j with
      | zero =>
        rw [List.getD_cons_zero, List.getD_cons_succ, List.getD_cons_zero]
          at hc ⊢
        rw [if_pos hc]
      | succ j' =>
        have h0 := hfirst 0 (Nat.succ_pos j')
        rw [List.getD_cons_zero, List.getD_cons_succ, List.getD_cons_zero]
          at h0
        rw [if_neg (by rw [h0]; exact Bool.false_ne_true)]
        rw [List.getD_cons_succ, List.getD_cons_succ] at hc ⊢
        exact ih j' (by simpa using Nat.lt_of_succ_lt_succ hj) hc
          (fun k hk => by
            have := hfirst (k + 1) (Nat.succ_lt_succ hk)
            rwa [List.getD_cons_succ, List.getD_cons_succ] at this)

/-! Bridges between the zipped series and index talk over `times`/`altitudes`,
and one-step unfoldings of the detector. -/

lemma zip_getD_of_len (times alts : List ℚ)
    (hlen : times.length = alts.length) (k : Nat) (hk : k < alts.length) :
    (times.zip alts).getD k (0, 0) = (times.getD k 0, alts.getD k 0) :=
  zip_getD times alts k (by omega) hk

lemma length_zip_of_len (times alts : List ℚ)
    (hlen : times.length = alts.length) :
    (times.zip alts).length = alts.length := by
  rw [List.length_zip, hlen, min_self]

/-- `scanCross` over the zipped series finds nothing exactly when no
consecutive altitude pair `(i-1, i)` satisfies the condition. -/
lemma scan_zip_none_iff (cond : ℚ → ℚ → Bool) (times alts : List ℚ)
    (hlen : times.length = alts.length) :
    scanCross cond (times.zip alts) = none ↔
      ∀ i, 1 ≤ i → i < alts.length →
        cond (alts.getD (i - 1) 0) (alts.getD i 0) = false := by
  rw [scanCross_eq_none_iff]
  constructor
  · intro h i h1 h2
    have hk : (i - 1) + 1 < (times.zip alts).length := by
      rw [length_zip_of_len times alts hlen]
      omega
    have := h (i - 1) hk
    rw [zip_getD_of_len times alts hlen (i - 1) (by omega),
      zip_getD_of_len times alts hlen ((i - 1) + 1) (by
        rw [length_zip_of_len times alts hlen] at hk
        omega)] at this
    have hi : (i - 1) + 1 = i := by omega
    rwa [hi] at this
  · intro h k hk
    rw [length_zip_of_len times alts hlen] at hk
    rw [zip_getD_of_len times alts hlen k (by omega),
      zip_getD_of_len times alts hlen (k + 1) hk]
    have := h (k + 1) (by omega) hk
    simpa using this

/-- `scanCross` over the zipped series, when pair `(j-1, j)` is the first
matching altitude pair, returns exactly the source's interpolated instant. -/
lemma scan_zip_some_first (cond : ℚ → ℚ → Bool) (times alts : List ℚ)
    (hlen : times.length = alts.length) (j : Nat) (hj1 : 1 ≤ j)
    (hj : j < alts.length)
    (hc : cond (alts.getD (j - 1) 0) (alts.getD j 0) = true)
    (hfirst : ∀ k, 1 ≤ k → k < j →
      cond (alts.getD (k - 1) 0) (alts.getD k 0) = false) :
    scanCross cond (times.zip alts) =
      some (interpTime (times.getD (j - 1) 0) (times.getD j 0)
        (alts.getD (j - 1) 0) (alts.getD j 0)) := by
  have hz := length_zip_of_len times alts hlen
  have hj' : (j - 1) + 1 = j := by omega
  have h1 : (j - 1) + 1 < (times.zip alts).length := by omega
  rw [scanCross_eq_some_first cond (times.zip alts) (j - 1) h1
    (by
      rw [zip_getD_of_len times alts hlen (j - 1) (by omega), hj',
        zip_getD_of_len times alts hlen j hj]
      exact hc)
    (fun k hk => by
      rw [zip_getD_of_len times alts hlen k (by omega),
        zip_getD_of_len times alts hlen (k + 1) (by omega)]
      have := hfirst (k + 1) (by omega) (by omega)
      simpa using this)]
  rw [zip_getD_of_len times alts hlen (j - 1) (by omega), hj',
    zip_getD_of_len times alts hlen j hj]

/-- Short-circuit branch of the detector: when the maximum altitude is ≤ 0 the
result is `(None, None, None)` whatever `times` is — no scan, no indexing. -/
lemma find_eq_below (times alts : List ℚ) (m : ℚ)
    (hm : pyMax alts = some m) (h0 : m ≤ 0) :
    find_rise_transit_set times alts = some (none, none, none) := by
  unfold find_rise_transit_set
  rw [hm]
  simp [h0]

/-- Main branch of the detector: maximum altitude positive and the transit
index in range. -/
lemma find_eq_main (times alts : List ℚ) (m : ℚ)
    (hm : pyMax alts = some m) (h0 : ¬ m ≤ 0)
    (hidx : pyArgmax alts < times.length) :
    find_rise_transit_set times alts =
      some (scanCross riseCond (times.zip alts),
        some (times.getD (pyArgmax alts) 0),
        scanCross setCond (times.zip alts)) := by
  unfold find_rise_transit_set
  rw [hm]
  simp only [h0, if_false]
  rw [get?_eq_some_getD times _ hidx]

/-- A set-direction interpolation (altitude going from strictly above to
strictly below the horizon) lands strictly before the right sample. -/
lemma interp_lt_right (t0 t1 a0 a1 : ℚ) (ht : t0 < t1) (ha0 : 0 < a0)
    (ha1 : a1 < 0) : interpTime t0 t1 a0 a1 < t1 := by
  unfold interpTime
  rw [mul_div_assoc,
    show (0 - a0) / (a1 - a0) = a0 / (a0 - a1) by
      rw [show (0 - a0) = -a0 by ring, show (a1 - a0) = -(a0 - a1) by ring,
        neg_div_neg_eq]]
  have hden : 0 < a0 - a1 := by linarith
  have hratio : a0 / (a0 - a1) < 1 := by
    rw [div_lt_one hden]
    linarith
  have hd : 0 < t1 - t0 := by linarith
  have := mul_lt_of_lt_one_right hd hratio
  linarith

/-- A rise-direction interpolation (altitude going from at-or-below to
strictly above the horizon) lands at or after the left sample. -/
lemma le_interp_left (t0 t1 a0 a1 : ℚ) (ht : t0 < t1) (ha0 : a0 ≤ 0)
    (ha1 : 0 < a1) : t0 ≤ interpTime t0 t1 a0 a1 := by
  unfold interpTime
  rw [mul_div_assoc]
  have hratio : 0 ≤ (0 - a0) / (a1 - a0) := by
    apply div_nonneg <;> linarith
  have hd : 0 ≤ t1 - t0 := by linarith
  have := mul_nonneg hd hratio
  linarith

/-- Before the first positive-to-nonpositive pair, a series that starts
strictly above the horizon stays strictly above it. -/
lemma pos_before_first_set_pair (alts : List ℚ) (s : Nat)
    (h0 : 0 < alts.getD 0 0)
    (hfirst : ∀ k, 1 ≤ k → k < s →
      ¬(0 < alts.getD (k - 1) 0 ∧ alts.getD k 0 ≤ 0)) :
    ∀ k, k < s → 0 < alts.getD k 0 := by
  intro k
  induction k with
  | zero => intro _; exact h0
  | succ k' ih =>
    intro hk
    have hk' := ih (by omega)
    by_contra hnp
    push_neg at hnp
    have h := hfirst (k' + 1) (by omega) hk
    have hs : (k' + 1) - 1 = k' := by omega
    rw [hs] at h
    exact h ⟨hk', hnp⟩

/-- If a series starts strictly above the horizon, its first
positive-to-nonpositive crossing (with a strict dip below) is interpolated to
an instant strictly before the interpolated instant of any
nonpositive-to-positive crossing that is first of its kind, provided the
timestamps are strictly increasing. -/
lemma set_time_lt_rise_time (times alts : List ℚ)
    (hlen : times.length = alts.length)
    (hmono : ∀ i j, i < j → j < times.length →
      times.getD i 0 < times.getD j 0)
    (h0 : 0 < alts.getD 0 0) (s r : Nat)
    (hs1 : 1 ≤ s) (hs : s < alts.length)
    (hsP : 0 < alts.getD (s - 1) 0) (hsD : alts.getD s 0 < 0)
    (hsF : ∀ k, 1 ≤ k → k < s →
      ¬(0 < alts.getD (k - 1) 0 ∧ alts.getD k 0 ≤ 0))
    (hr1 : 1 ≤ r) (hr : r < alts.length)
    (hrA : alts.getD (r - 1) 0 ≤ 0) (hrB : 0 < alts.getD r 0) :
    interpTime (times.getD (s - 1) 0) (times.getD s 0)
        (alts.getD (s - 1) 0) (alts.getD s 0) <
      interpTime (times.getD (r - 1) 0) (times.getD r 0)
        (alts.getD (r - 1) 0) (alts.getD r 0) := by
  have hpos := pos_before_first_set_pair alts s h0 hsF
  have hrs : s ≤ r - 1 := by
    by_contra hlt
    push_neg at hlt
    have := hpos (r - 1) hlt
    linarith
  have ht_s : times.getD (s - 1) 0 < times.getD s 0 :=
    hmono (s - 1) s (by omega) (by omega)
  have ht_r : times.getD (r - 1) 0 < times.getD r 0 :=
    hmono (r - 1) r (by omega) (by omega)
  have hset := interp_lt_right (times.getD (s - 1) 0) (times.getD s 0)
    (alts.getD (s - 1) 0) (alts.getD s 0) ht_s hsP hsD
  have hrise := le_interp_left (times.getD (r - 1) 0) (times.getD r 0)
    (alts.getD (r - 1) 0) (alts.getD r 0) ht_r hrA hrB
  have hmid : times.getD s 0 ≤ times.getD (r - 1) 0 := by
    rcases eq_or_lt_of_le hrs with heq | hlt
    · rw [heq]
    · exact le_of_lt (hmono s (r - 1) hlt (by omega))
  linarith

example : find_rise_transit_set [0, 1, 2] [5, -5, 5] =
    some (some (3 / 2), some 0, some (1 / 2)) := by
  norm_num [find_rise_transit_set, pyMax, pyArgmax, scanCross, riseCond,
    setCond, interpTime]

example : find_rise_transit_set [0, 1] [5, 6] = some (none, some 1, none) := by
  norm_num [find_rise_transit_set, pyMax, pyArgmax, scanCross, riseCond,
    setCond, interpTime]

example : find_rise_transit_set [0] [1] = some (none, some 0, none) := by
  norm_num [find_rise_transit_set, pyMax, pyArgmax, scanCross]

example : get_compass_direction 0 = "N" := by
  norm_num [get_compass_direction, pyRound, directions]

example : get_compass_direction (45 / 2) = "NNE" := by
  norm_num [get_compass_direction, pyRound, directions]

example : get_compass_direction 359 = "N" := by
  norm_num [get_compass_direction, pyRound, directions]

example : get_compass_direction 180 = "S" := by
  norm_num [get_compass_direction, pyRound, directions]
  decide

/-! Claim theorems. -/

/-- C1: for every altitude series with at least two samples, the detector's
rise event is determined by the first consecutive pair `(i-1, i)` with
`altitude[i-1] ≤ 0` and `altitude[i] > 0`; the rise time equals
`t[i-1] + (t[i] - t[i-1]) * (0 - altitude[i-1]) / (altitude[i] - altitude[i-1])`,
the scan stops at that first match (so at most the earliest rising crossing is
reported), and rise is `None` when no such pair exists. -/
theorem c1_rise_first_crossing (times alts : List ℚ)
    (hlen : times.length = alts.length) (h2 : 2 ≤ alts.length) :
    ∃ res, find_rise_transit_set times alts = some res ∧
      ((∀ i, 1 ≤ i → i < alts.length →
          ¬(alts.getD (i - 1) 0 ≤ 0 ∧ 0 < alts.getD i 0)) → res.1 = none) ∧
      (∀ j, 1 ≤ j → j < alts.length →
        (alts.getD (j - 1) 0 ≤ 0 ∧ 0 < alts.getD j 0) →
        (∀ k, 1 ≤ k → k < j →
          ¬(alts.getD (k - 1) 0 ≤ 0 ∧ 0 < alts.getD k 0)) →
        res.1 = some (times.getD (j - 1) 0 +
          (times.getD j 0 - times.getD (j - 1) 0) * (0 - alts.getD (j - 1) 0) /
            (alts.getD j 0 - alts.getD (j - 1) 0))) := by
  have hne : alts ≠ [] := by
    intro h
    subst h
    simp at h2
  obtain ⟨m, hm⟩ := pyMax_eq_some hne
  by_cases h0 : m ≤ 0
  · refine ⟨(none, none, none), find_eq_below times alts m hm h0,
      fun _ => rfl, ?_⟩
    intro j _ hj hcond _
    exfalso
    have := le_pyMax hm (getD_mem alts j hj)
    linarith [hcond.2]
  · have hidx : pyArgmax alts < times.length := by
      rw [hlen]
      exact pyArgmax_lt alts hne
    refine ⟨_, find_eq_main times alts m hm h0 hidx, ?_, ?_⟩
    · intro h
      show scanCross riseCond (times.zip alts) = none
      rw [scan_zip_none_iff riseCond times alts hlen]
      intro i h1 h2'
      rw [riseCond_false_iff]
      exact h i h1 h2'
    · intro j hj1 hj hcond hfirst
      show scanCross riseCond (times.zip alts) = some _
      rw [scan_zip_some_first riseCond times alts hlen j hj1 hj
        ((riseCond_true_iff _ _).mpr hcond)
        (fun k hk1 hk2 => (riseCond_false_iff _ _).mpr (hfirst k hk1 hk2))]
      rfl

theorem c1_rise_first_crossing_witness :
    ∃ res, find_rise_transit_set [0, 1] [-1, 1] = some res ∧
      ((∀ i, 1 ≤ i → i < [(-1 : ℚ), 1].length →
          ¬([(-1 : ℚ), 1].getD (i - 1) 0 ≤ 0 ∧
            0 < [(-1 : ℚ), 1].getD i 0)) → res.1 = none) ∧
      (∀ j, 1 ≤ j → j < [(-1 : ℚ), 1].length →
        ([(-1 : ℚ), 1].getD (j - 1) 0 ≤ 0 ∧ 0 < [(-1 : ℚ), 1].getD j 0) →
        (∀ k, 1 ≤ k → k < j →
          ¬([(-1 : ℚ), 1].getD (k - 1) 0 ≤ 0 ∧
            0 < [(-1 : ℚ), 1].getD k 0)) →
        res.1 = some ([(0 : ℚ), 1].getD (j - 1) 0 +
          ([(0 : ℚ), 1].getD j 0 - [(0 : ℚ), 1].getD (j - 1) 0) *
            (0 - [(-1 : ℚ), 1].getD (j - 1) 0) /
            ([(-1 : ℚ), 1].getD j 0 - [(-1 : ℚ), 1].getD (j - 1) 0))) :=
  c1_rise_first_crossing [0, 1] [-1, 1] rfl (by norm_num)

/-- C3: for every altitude series containing at least one strictly positive
altitude, the transit time is the timestamp of the sample holding the global
maximum altitude, with ties resolved to the first occurrence; no sub-sample
interpolation — the reported instant is one of the input timestamps. -/
theorem c3_transit_at_first_argmax (times alts : List ℚ)
    (hlen : times.length = alts.length) (hpos : ∃ a ∈ alts, 0 < a) :
    ∃ res, find_rise_transit_set times alts = some res ∧
      ∃ j, j < alts.length ∧ res.2.1 = some (times.getD j 0) ∧
        (∀ k, k < alts.length → alts.getD k 0 ≤ alts.getD j 0) ∧
        (∀ k, k < j → alts.getD k 0 < alts.getD j 0) := by
  obtain ⟨a, ha, ha0⟩ := hpos
  have hne : alts ≠ [] := by
    intro h
    subst h
    cases ha
  obtain ⟨m, hm⟩ := pyMax_eq_some hne
  have h0 : ¬ m ≤ 0 := by
    have := le_pyMax hm ha
    push_neg
    linarith
  have hidx : pyArgmax alts < times.length := by
    rw [hlen]
    exact pyArgmax_lt alts hne
  exact ⟨_, find_eq_main times alts m hm h0 hidx, pyArgmax alts,
    pyArgmax_lt alts hne, rfl, fun k hk => pyArgmax_is_max alts k hk,
    fun k hk => pyArgmax_first alts k hk⟩

theorem c3_transit_at_first_argmax_witness :
    ∃ res, find_rise_transit_set [0, 1, 2] [1, 2, 2] = some res ∧
      ∃ j, j < [(1 : ℚ), 2, 2].length ∧
        res.2.1 = some ([(0 : ℚ), 1, 2].getD j 0) ∧
        (∀ k, k < [(1 : ℚ), 2, 2].length →
          [(1 : ℚ), 2, 2].getD k 0 ≤ [(1 : ℚ), 2, 2].getD j 0) ∧
        (∀ k, k < j → [(1 : ℚ), 2, 2].getD k 0 < [(1 : ℚ), 2, 2].getD j 0) :=
  c3_transit_at_first_argmax [0, 1, 2] [1, 2, 2] rfl
    ⟨1, by norm_num, by norm_num⟩

/-- C4: for every altitude series whose altitudes are all ≤ 0 the detector
returns all three events absent.  The statement quantifies over an arbitrary
`times` list, unrelated to `altitudes`: the `(None, None, None)` answer is
produced by the short-circuit before any rise, transit, or set search (and
hence before any indexing into `times`). -/
theorem c4_always_below_short_circuit (times alts : List ℚ) (hne : alts ≠ [])
    (hbelow : ∀ a ∈ alts, a ≤ 0) :
    find_rise_transit_set times alts = some (none, none, none) := by
  obtain ⟨m, hm⟩ := pyMax_eq_some hne
  exact find_eq_below times alts m hm (hbelow m (pyMax_mem hm))

theorem c4_always_below_short_circuit_witness :
    find_rise_transit_set [] [-3, -1] = some (none, none, none) :=
  c4_always_below_short_circuit [] [-3, -1] (by simp)
    (by
      intro a ha
      fin_cases ha <;> norm_num)

/-- C5: in both scan branches the branch condition forces the two altitudes to
differ, so the interpolation denominator `altitude[i] - altitude[i-1]` is
never zero; and an altitude of exactly 0 counts as at-or-below the horizon in
both conditions, never as above (it cannot serve as the strictly positive side
of either branch). -/
theorem c5_interpolation_division_safe (a b : ℚ) :
    (riseCond a b = true → b - a ≠ 0) ∧
    (setCond a b = true → b - a ≠ 0) ∧
    riseCond a 0 = false ∧ setCond 0 b = false := by
  refine ⟨?_, ?_, ?_, ?_⟩
  · intro h
    obtain ⟨h1, h2⟩ := (riseCond_true_iff a b).mp h
    exact sub_ne_zero.mpr (lt_of_le_of_lt h1 h2).ne'
  · intro h
    obtain ⟨h1, h2⟩ := (setCond_true_iff a b).mp h
    exact sub_ne_zero.mpr (lt_of_le_of_lt h2 h1).ne
  · simp [riseCond]
  · simp [setCond]

theorem c5_interpolation_division_safe_witness :
    riseCond (-1) 1 = true ∧ ((1 : ℚ) - (-1) ≠ 0) ∧
    setCond 1 (-1) = true ∧ ((-1 : ℚ) - 1 ≠ 0) ∧
    riseCond (-1) 0 = false ∧ setCond 0 1 = false :=
  ⟨by norm_num [riseCond],
    (c5_interpolation_division_safe (-1) 1).1 (by norm_num [riseCond]),
    by norm_num [setCond],
    (c5_interpolation_division_safe 1 (-1)).2.1 (by norm_num [setCond]),
    (c5_interpolation_division_safe (-1) 0).2.2.1,
    (c5_interpolation_division_safe 0 1).2.2.2⟩

/-- C9: the detector is deterministic and pure — it is a function of its two
list arguments alone, so two invocations on equal inputs return equal rise,
transit, and set results. -/
theorem c9_deterministic (times alts times' alts' : List ℚ)
    (ht : times = times') (ha : alts = alts') :
    find_rise_transit_set times alts = find_rise_transit_set times' alts' := by
  rw [ht, ha]

theorem c9_deterministic_witness :
    find_rise_transit_set [0, 1] [-1, 1] =
      find_rise_transit_set [0, 1] [-1, 1] :=
  c9_deterministic [0, 1] [-1, 1] [0, 1] [-1, 1] rfl rfl

/-- C2: the set event is the first consecutive pair with
`altitude[i-1] > 0` and `altitude[i] ≤ 0`, scanned from the start of the
series and interpolated with the same formula as rise; the scan is independent
of the rise index, and for a series that starts above the horizon and dips
strictly below before later rising, the reported set time strictly precedes
the reported rise time. -/
theorem c2_set_first_crossing_independent :
    (∀ times alts : List ℚ, times.length = alts.length → 2 ≤ alts.length →
      ∃ res, find_rise_transit_set times alts = some res ∧
        ((∀ i, 1 ≤ i → i < alts.length →
            ¬(0 < alts.getD (i - 1) 0 ∧ alts.getD i 0 ≤ 0)) →
          res.2.2 = none) ∧
        (∀ j, 1 ≤ j → j < alts.length →
          (0 < alts.getD (j - 1) 0 ∧ alts.getD j 0 ≤ 0) →
          (∀ k, 1 ≤ k → k < j →
            ¬(0 < alts.getD (k - 1) 0 ∧ alts.getD k 0 ≤ 0)) →
          res.2.2 = some (times.getD (j - 1) 0 +
            (times.getD j 0 - times.getD (j - 1) 0) *
              (0 - alts.getD (j - 1) 0) /
              (alts.getD j 0 - alts.getD (j - 1) 0)))) ∧
    (∀ times alts : List ℚ, times.length = alts.length →
      (∀ i j, i < j → j < times.length →
        times.getD i 0 < times.getD j 0) →
      0 < alts.getD 0 0 →
      ∀ s r,
        (1 ≤ s ∧ s < alts.length ∧ 0 < alts.getD (s - 1) 0 ∧
          alts.getD s 0 < 0 ∧
          ∀ k, 1 ≤ k → k < s →
            ¬(0 < alts.getD (k - 1) 0 ∧ alts.getD k 0 ≤ 0)) →
        (1 ≤ r ∧ r < alts.length ∧ alts.getD (r - 1) 0 ≤ 0 ∧
          0 < alts.getD r 0 ∧
          ∀ k, 1 ≤ k → k < r →
            ¬(alts.getD (k - 1) 0 ≤ 0 ∧ 0 < alts.getD k 0)) →
        ∃ res ts tr, find_rise_transit_set times alts = some res ∧
          res.2.2 = some ts ∧ res.1 = some tr ∧ ts < tr) := by
  constructor
  · intro times alts hlen h2
    have hne : alts ≠ [] := by
      intro h
      subst h
      simp at h2
    obtain ⟨m, hm⟩ := pyMax_eq_some hne
    by_cases h0 : m ≤ 0
    · refine ⟨(none, none, none), find_eq_below times alts m hm h0,
        fun _ => rfl, ?_⟩
      intro j hj1 hj hcond _
      exfalso
      have := le_pyMax hm (getD_mem alts (j - 1) (by omega))
      linarith [hcond.1]
    · have hidx : pyArgmax alts < times.length := by
        rw [hlen]
        exact pyArgmax_lt alts hne
      refine ⟨_, find_eq_main times alts m hm h0 hidx, ?_, ?_⟩
      · intro h
        show scanCross setCond (times.zip alts) = none
        rw [scan_zip_none_iff setCond times alts hlen]
        intro i h1 h2'
        rw [setCond_false_iff]
        exact h i h1 h2'
      · intro j hj1 hj hcond hfirst
        show scanCross setCond (times.zip alts) = some _
        rw [scan_zip_some_first setCond times alts hlen j hj1 hj
          ((setCond_true_iff _ _).mpr hcond)
          (fun k hk1 hk2 => (setCond_false_iff _ _).mpr (hfirst k hk1 hk2))]
        rfl
  · intro times alts hlen hmono h0 s r hsPack hrPack
    obtain ⟨hs1, hs, hsP, hsD, hsF⟩ := hsPack
    obtain ⟨hr1, hr, hrA, hrB, hrF⟩ := hrPack
    have hne : alts ≠ [] := by
      intro h
      subst h
      simp at hr
    obtain ⟨m, hm⟩ := pyMax_eq_some hne
    have h0m : ¬ m ≤ 0 := by
      have := le_pyMax hm (getD_mem alts r hr)
      push_neg
      linarith
    have hidx : pyArgmax alts < times.length := by
      rw [hlen]
      exact pyArgmax_lt alts hne
    refine ⟨_,
      interpTime (times.getD (s - 1) 0) (times.getD s 0)
        (alts.getD (s - 1) 0) (alts.getD s 0),
      interpTime (times.getD (r - 1) 0) (times.getD r 0)
        (alts.getD (r - 1) 0) (alts.getD r 0),
      find_eq_main times alts m hm h0m hidx, ?_, ?_, ?_⟩
    · show scanCross setCond (times.zip alts) = some _
      exact scan_zip_some_first setCond times alts hlen s hs1 hs
        ((setCond_true_iff _ _).mpr ⟨hsP, le_of_lt hsD⟩)
        (fun k hk1 hk2 => (setCond_false_iff _ _).mpr (hsF k hk1 hk2))
    · show scanCross riseCond (times.zip alts) = some _
      exact scan_zip_some_first riseCond times alts hlen r hr1 hr
        ((riseCond_true_iff _ _).mpr ⟨hrA, hrB⟩)
        (fun k hk1 hk2 => (riseCond_false_iff _ _).mpr (hrF k hk1 hk2))
    · exact set_time_lt_rise_time times alts hlen hmono h0 s r hs1 hs hsP
        hsD hsF hr1 hr hrA hrB

theorem c2_set_first_crossing_independent_witness :
    (∃ res, find_rise_transit_set [0, 1, 2] [5, -5, 5] = some res ∧
      ((∀ i, 1 ≤ i → i < [(5 : ℚ), -5, 5].length →
          ¬(0 < [(5 : ℚ), -5, 5].getD (i - 1) 0 ∧
            [(5 : ℚ), -5, 5].getD i 0 ≤ 0)) → res.2.2 = none) ∧
      (∀ j, 1 ≤ j → j < [(5 : ℚ), -5, 5].length →
        (0 < [(5 : ℚ), -5, 5].getD (j - 1) 0 ∧
          [(5 : ℚ), -5, 5].getD j 0 ≤ 0) →
        (∀ k, 1 ≤ k → k < j →
          ¬(0 < [(5 : ℚ), -5, 5].getD (k - 1) 0 ∧
            [(5 : ℚ), -5, 5].getD k 0 ≤ 0)) →
        res.2.2 = some ([(0 : ℚ), 1, 2].getD (j - 1) 0 +
          ([(0 : ℚ), 1, 2].getD j 0 - [(0 : ℚ), 1, 2].getD (j - 1) 0) *
            (0 - [(5 : ℚ), -5, 5].getD (j - 1) 0) /
            ([(5 : ℚ), -5, 5].getD j 0 - [(5 : ℚ), -5, 5].getD (j - 1) 0)))) ∧
    (∃ res ts tr, find_rise_transit_set [0, 1, 2] [5, -5, 5] = some res ∧
      res.2.2 = some ts ∧ res.1 = some tr ∧ ts < tr) := by
  constructor
  · exact c2_set_first_crossing_independent.1 [0, 1, 2] [5, -5, 5] rfl
      (by norm_num)
  · refine c2_set_first_crossing_independent.2 [0, 1, 2] [5, -5, 5] rfl
      ?_ (by norm_num) 1 2 ⟨le_rfl, by norm_num, by norm_num, by norm_num,
        fun k hk1 hk2 => absurd (lt_of_le_of_lt hk1 hk2) (by omega)⟩
      ⟨by norm_num, by norm_num, by norm_num, by norm_num, ?_⟩
    · intro i j hij hj
      simp only [List.length_cons, List.length_nil] at hj
      interval_cases j <;> interval_cases i <;> norm_num
    · intro k hk1 hk2
      have hk : k = 1 := by omega
      subst hk
      norm_num

/-- C6 counterexample: a one-sample series does NOT make the detector fail.
`max([a])` succeeds, both scan loops (`range(1, 1)`) are empty, and
`times[argmax]` is in range, so the detector returns a normal result
`(None, times[0], None)` for a single positive-altitude sample. -/
theorem c6_counterexample :
    [(1 : ℚ)].length < 2 ∧
    find_rise_transit_set [0] [1] = some (none, some 0, none) := by
  constructor
  · norm_num
  · norm_num [find_rise_transit_set, pyMax, pyArgmax, scanCross]

/-- C6 amended: only the EMPTY series makes the reference detector fail
(`max()` of an empty sequence); a one-sample series returns a normal
`DetectionResult` with rise and set absent and transit equal to the sample's
timestamp exactly when its altitude is positive. -/
theorem c6_amended_short_series (times : List ℚ) (t a : ℚ) :
    find_rise_transit_set times [] = none ∧
    (0 < a → find_rise_transit_set [t] [a] = some (none, some t, none)) ∧
    (a ≤ 0 → find_rise_transit_set [t] [a] = some (none, none, none)) := by
  refine ⟨rfl, ?_, ?_⟩
  · intro ha
    rw [find_eq_main [t] [a] a rfl (not_le.mpr ha) (by simp [pyArgmax])]
    rfl
  · intro ha
    exact find_eq_below [t] [a] a rfl ha

theorem c6_amended_short_series_witness :
    find_rise_transit_set [7] [] = none ∧
    find_rise_transit_set [3] [2] = some (none, some 3, none) ∧
    find_rise_transit_set [3] [-2] = some (none, none, none) :=
  ⟨(c6_amended_short_series [7] 3 2).1,
    (c6_amended_short_series [7] 3 2).2.1 (by norm_num),
    (c6_amended_short_series [7] 3 (-2)).2.2 (by norm_num)⟩

/-- C7 counterexample: the series `[5, 10, -5, 6]` at times `[0, 1, 2, 3]`
starts strictly above the horizon and has no nonpositive-to-positive pair at
or before the maximum (index 1), yet the detector reports a rise (the pair
`(-5, 6)` after the maximum), contradicting the claim that rise would be
`None` for every such series. -/
theorem c7_counterexample :
    (0 : ℚ) < [(5 : ℚ), 10, -5, 6].getD 0 0 ∧
    (∀ i, 1 ≤ i → i ≤ pyArgmax [(5 : ℚ), 10, -5, 6] →
      ¬([(5 : ℚ), 10, -5, 6].getD (i - 1) 0 ≤ 0 ∧
        0 < [(5 : ℚ), 10, -5, 6].getD i 0)) ∧
    find_rise_transit_set [0, 1, 2, 3] [5, 10, -5, 6] =
      some (some (27 / 11), some 1, some (5 / 3)) ∧
    some ((27 : ℚ) / 11) ≠ (none : Option ℚ) := by
  have hidx : pyArgmax [(5 : ℚ), 10, -5, 6] = 1 := by
    norm_num [pyArgmax]
  refine ⟨by norm_num, ?_, ?_, by simp⟩
  · intro i h1 h2
    rw [hidx] at h2
    have hi : i = 1 := by omega
    subst hi
    norm_num
  · norm_num [find_rise_transit_set, pyMax, pyArgmax, scanCross, riseCond,
      setCond, interpTime]

/-- C7 amended: each of rise, transit, and set is independently `None` exactly
when its own qualifying pair or sample is missing from the WHOLE series —
rise is `None` iff no nonpositive-to-positive consecutive pair exists anywhere
(not merely before the maximum), set is `None` iff no positive-to-nonpositive
pair exists, and transit is `None` iff no sample is strictly positive; the
absence of one event never suppresses the others. -/
theorem c7_amended_independent_absence (times alts : List ℚ)
    (hlen : times.length = alts.length) (hne : alts ≠ []) :
    ∃ res, find_rise_transit_set times alts = some res ∧
      (res.1 = none ↔ ∀ i, 1 ≤ i → i < alts.length →
        ¬(alts.getD (i - 1) 0 ≤ 0 ∧ 0 < alts.getD i 0)) ∧
      (res.2.1 = none ↔ ∀ a ∈ alts, a ≤ 0) ∧
      (res.2.2 = none ↔ ∀ i, 1 ≤ i → i < alts.length →
        ¬(0 < alts.getD (i - 1) 0 ∧ alts.getD i 0 ≤ 0)) := by
  obtain ⟨m, hm⟩ := pyMax_eq_some hne
  by_cases h0 : m ≤ 0
  · refine ⟨(none, none, none), find_eq_below times alts m hm h0,
      iff_of_true rfl ?_, iff_of_true rfl ?_, iff_of_true rfl ?_⟩
    · intro i _ hi hpair
      have := le_pyMax hm (getD_mem alts i hi)
      linarith [hpair.2]
    · intro a ha
      exact le_trans (le_pyMax hm ha) h0
    · intro i h1 hi hpair
      have := le_pyMax hm (getD_mem alts (i - 1) (by omega))
      linarith [hpair.1]
  · have hidx : pyArgmax alts < times.length := by
      rw [hlen]
      exact pyArgmax_lt alts hne
    refine ⟨_, find_eq_main times alts m hm h0 hidx, ?_, ?_, ?_⟩
    · show scanCross riseCond (times.zip alts) = none ↔ _
      rw [scan_zip_none_iff riseCond times alts hlen]
      simp only [riseCond_false_iff]
    · show some (times.getD (pyArgmax alts) 0) = none ↔ _
      refine iff_of_false (by simp) ?_
      intro hall
      exact h0 (hall m (pyMax_mem hm))
    · show scanCross setCond (times.zip alts) = none ↔ _
      rw [scan_zip_none_iff setCond times alts hlen]
      simp only [setCond_false_iff]

theorem c7_amended_independent_absence_witness :
    ∃ res, find_rise_transit_set [0, 1] [-1, 1] = some res ∧
      (res.1 = none ↔ ∀ i, 1 ≤ i → i < [(-1 : ℚ), 1].length →
        ¬([(-1 : ℚ), 1].getD (i - 1) 0 ≤ 0 ∧ 0 < [(-1 : ℚ), 1].getD i 0)) ∧
      (res.2.1 = none ↔ ∀ a ∈ [(-1 : ℚ), 1], a ≤ 0) ∧
      (res.2.2 = none ↔ ∀ i, 1 ≤ i → i < [(-1 : ℚ), 1].length →
        ¬(0 < [(-1 : ℚ), 1].getD (i - 1) 0 ∧ [(-1 : ℚ), 1].getD i 0 ≤ 0)) :=
  c7_amended_independent_absence [0, 1] [-1, 1] rfl (by simp)

/-- C8: for every azimuth in `[0, 360)` the compass helper returns the element
at index `round(azimuth / 22.5) mod 16` of the 16-point list (an index always
in range), with the spot checks 0° → N, 22.5° → NNE, 359° → N (wrapping), and
180° → S. -/
theorem c8_compass_sixteen_sectors (az : ℚ) (h0 : 0 ≤ az) (h1 : az < 360) :
    (∃ i : Nat, i < 16 ∧ (i : ℤ) = pyRound (az / (45 / 2)) % 16 ∧
      get_compass_direction az = directions.getD i "") ∧
    directions.length = 16 ∧
    get_compass_direction 0 = "N" ∧
    get_compass_direction (45 / 2) = "NNE" ∧
    get_compass_direction 359 = "N" ∧
    get_compass_direction 180 = "S" := by
  refine ⟨⟨(pyRound (az / (45 / 2)) % 16).toNat, ?_, ?_, rfl⟩, rfl,
    ?_, ?_, ?_, ?_⟩
  · have hlt : pyRound (az / (45 / 2)) % 16 < 16 :=
      Int.emod_lt_of_pos _ (by norm_num)
    have hge : 0 ≤ pyRound (az / (45 / 2)) % 16 :=
      Int.emod_nonneg _ (by norm_num)
    omega
  · rw [Int.toNat_of_nonneg (Int.emod_nonneg _ (by norm_num))]
  · norm_num [get_compass_direction, pyRound, directions]
  · norm_num [get_compass_direction, pyRound, directions]
  · norm_num [get_compass_direction, pyRound, directions]
  · norm_num [get_compass_direction, pyRound, directions]
    decide

theorem c8_compass_sixteen_sectors_witness :
    (∃ i : Nat, i < 16 ∧ (i : ℤ) = pyRound ((90 : ℚ) / (45 / 2)) % 16 ∧
      get_compass_direction 90 = directions.getD i "") ∧
    directions.length = 16 ∧
    get_compass_direction 0 = "N" ∧
    get_compass_direction (45 / 2) = "NNE" ∧
    get_compass_direction 359 = "N" ∧
    get_compass_direction 180 = "S" :=
  c8_compass_sixteen_sectors 90 (by norm_num) (by norm_num)

/-- C10 counterexample: the claimed equivalence "transit is `None` iff rise
and set are both `None`" fails: for times `[0, 1]` and altitudes `[5, 6]` the
detector returns rise = `None` and set = `None` while transit is populated. -/
theorem c10_counterexample :
    ¬ ∀ (times alts : List ℚ) (res : Option ℚ × Option ℚ × Option ℚ),
        find_rise_transit_set times alts = some res →
        (res.2.1 = none ↔ res.1 = none ∧ res.2.2 = none) := by
  intro h
  have heval : find_rise_transit_set [0, 1] [5, 6] =
      some (none, some 1, none) := by
    norm_num [find_rise_transit_set, pyMax, pyArgmax, scanCross, riseCond,
      setCond]
  have := h [0, 1] [5, 6] (none, some 1, none) heval
  simp at this

/-- C10 amended: transit is `None` exactly when every altitude is ≤ 0 (the
everything-below case); in that case rise and set are `None` too, so transit
is never independently absent while rise or set is present, and whenever some
altitude is strictly positive, transit is always populated.  (Rise and set
both absent does NOT imply transit absent.) -/
theorem c10_amended_transit_absence (times alts : List ℚ)
    (hlen : times.length = alts.length) (hne : alts ≠ []) :
    ∃ res, find_rise_transit_set times alts = some res ∧
      (res.2.1 = none ↔ ∀ a ∈ alts, a ≤ 0) ∧
      (res.2.1 = none → res.1 = none ∧ res.2.2 = none) ∧
      ((∃ a ∈ alts, 0 < a) → res.2.1 ≠ none) := by
  obtain ⟨m, hm⟩ := pyMax_eq_some hne
  by_cases h0 : m ≤ 0
  · refine ⟨(none, none, none), find_eq_below times alts m hm h0,
      iff_of_true rfl (fun a ha => le_trans (le_pyMax hm ha) h0),
      fun _ => ⟨rfl, rfl⟩, ?_⟩
    intro hpos
    exfalso
    obtain ⟨a, ha, hap⟩ := hpos
    have := le_pyMax hm ha
    linarith
  · have hidx : pyArgmax alts < times.length := by
      rw [hlen]
      exact pyArgmax_lt alts hne
    refine ⟨_, find_eq_main times alts m hm h0 hidx, ?_, ?_, fun _ => ?_⟩
    · refine iff_of_false (by simp) ?_
      intro hall
      exact h0 (hall m (pyMax_mem hm))
    · intro habs
      exact absurd habs (by simp)
    · simp

theorem c10_amended_transit_absence_witness :
    ∃ res, find_rise_transit_set [0, 1] [5, 6] = some res ∧
      (res.2.1 = none ↔ ∀ a ∈ [(5 : ℚ), 6], a ≤ 0) ∧
      (res.2.1 = none → res.1 = none ∧ res.2.2 = none) ∧
      ((∃ a ∈ [(5 : ℚ), 6], 0 < a) → res.2.1 ≠ none) :=
  c10_amended_transit_absence [0, 1] [5, 6] rfl (by simp)
